import Mathlib

/-!
Verification of the Balanced News feed core: the source selector and the
card assembler of the backend gateway (`src/backend/src/index.js`),
embedded shallowly. Machine strings stay strings; the JS `null`/absent
article source object is an `Option`; query coordinates parsed by
`parseFloat` are `Option Rat` (`none` standing for `NaN`).
-/

namespace News

/-- A catalog entry `{id, name, side, x, y}` from the static source list. -/
structure Source where
  id : String
  name : String
  side : String
  x : Rat
  y : Rat
deriving Repr, DecidableEq

/-- An article from the external provider, as the assembler reads it:
`url`, `title`, `urlToImage`, `publishedAt`, and `source`, where `none`
models an absent or null `source` object and `some sid` a source object
with identifier `sid`. -/
structure Article where
  url : String
  title : String
  urlToImage : String
  publishedAt : String
  source : Option String
deriving Repr, DecidableEq

/-- The per-slot output record pushed onto `cards`. -/
structure Card where
  articleId : String
  title : String
  sourceId : String
  sourceName : String
  imageUrl : String
  url : String
  publishedAt : String
  side : String
deriving Repr, DecidableEq

/-- The match predicate of `articles.find(a => a.source && a.source.id === src.id)`. -/
def matchesSource (s : Source) (a : Article) : Bool :=
  match a.source with
  | some sid => sid == s.id
  | none => false

/-- The card record pushed for a chosen article `a` and the slot source `s`:
content fields from `a`, identity fields (`sourceId`, `sourceName`, `side`)
from `s`.  Both the exact-match push and the fallback push build exactly
this record. -/
def mkCard (s : Source) (a : Article) : Card :=
  { articleId := a.url
    title := a.title
    sourceId := s.id
    sourceName := s.name
    imageUrl := a.urlToImage
    url := a.url
    publishedAt := a.publishedAt
    side := s.side }

/-- The `for (const src of sources)` loop of the `/feed` handler.
`emitted` is `cards.length`, the number of cards pushed so far; the
fallback picks `articles[cards.length % articles.length]` only under the
guard `articles.length > 0`. -/
def assembleLoop (articles : List Article) : List Source → Nat → List Card
  | [], _ => []
  | s :: rest, emitted =>
    match articles.find? (matchesSource s) with
    | some art => mkCard s art :: assembleLoop articles rest (emitted + 1)
    | none =>
      if h : 0 < articles.length then
        mkCard s (articles.get ⟨emitted % articles.length, Nat.mod_lt _ h⟩) ::
          assembleLoop articles rest (emitted + 1)
      else
        assembleLoop articles rest emitted

/-- The card assembly of the `/feed` handler: start with `cards = []`. -/
def assembleCards (sources : List Source) (articles : List Article) : List Card :=
  assembleLoop articles sources 0

/-- The same loop with the fallback array access made fallible: in the JS
runtime, reading `articles[k]` out of bounds yields `undefined` and the
subsequent field reads on it would throw, so an out-of-bounds index is the
loop error case; `none` models that error. -/
def assembleLoopFallible (articles : List Article) :
    List Source → Nat → Option (List Card)
  | [], _ => some []
  | s :: rest, emitted =>
    match articles.find? (matchesSource s) with
    | some art =>
      (assembleLoopFallible articles rest (emitted + 1)).map (mkCard s art :: ·)
    | none =>
      if 0 < articles.length then
        match articles[emitted % articles.length]? with
        | some fb =>
          (assembleLoopFallible articles rest (emitted + 1)).map (mkCard s fb :: ·)
        | none => none
      else
        assembleLoopFallible articles rest emitted

/-- Squared Euclidean distance from a catalog entry to the query point. -/
def dist2 (x y : Rat) (s : Source) : Rat :=
  (s.x - x) * (s.x - x) + (s.y - y) * (s.y - y)

/-- Selection order: strictly nearer to the query point first, ties broken
by source identifier ascending. -/
def nearer (x y : Rat) (s t : Source) : Bool :=
  dist2 x y s < dist2 x y t ||
    (dist2 x y s == dist2 x y t && decide (s.id ≤ t.id))

/-- Insert into a list ordered by `le` (insertion-sort step). -/
def insertBy (le : Source → Source → Bool) (a : Source) :
    List Source → List Source
  | [] => [a]
  | b :: l => if le a b then a :: b :: l else b :: insertBy le a l

/-- Deterministic insertion sort by `le`. -/
def sortBy (le : Source → Source → Bool) : List Source → List Source
  | [] => []
  | a :: l => insertBy le a (sortBy le l)

/-- The configured number of feed slots. -/
def SLOT_COUNT : Nat := 4

/-- Modelled from the spec: `pickSources` is implemented in `feed.js`,
which is not among the provided sources — only its import and call in
`index.js` are.  Per §4.1 and §9 it is a deterministic pure function of
the query point and the static catalog, returning the `SLOT_COUNT`
catalog entries nearest to (x, y), ties broken by source identifier
ascending, and the whole catalog when it has fewer entries than slots. -/
def pickSources (catalog : List Source) (x y : Rat) : List Source :=
  (sortBy (nearer x y) catalog).take SLOT_COUNT

/-- The `/feed` handler outcome: a 400 client error or a card payload. -/
inductive FeedResponse where
  | badRequest
  | payload (cards : List Card)
deriving Repr, DecidableEq

/-- The pure skeleton of the `/feed` handler: `qx`/`qy` are the
`parseFloat` results of the query parameters, with `none` standing for
`NaN` (missing or non-numeric input); `fetch` abstracts the external
`getArticlesBySources`; the cache, a pass-through around the core, is
omitted.  The `isNaN` guard rejects with 400 before the selector, the
fetch or the assembler run. -/
def feedHandler (catalog : List Source) (fetch : List String → List Article)
    (qx qy : Option Rat) : FeedResponse :=
  match qx, qy with
  | some x, some y =>
    let sources := pickSources catalog x y
    if sources.length = 0 then
      FeedResponse.payload []
    else
      FeedResponse.payload (assembleCards sources (fetch (sources.map (·.id))))
  | _, _ => FeedResponse.badRequest

/-- The identity fields a card reports. -/
def cardIdentity (c : Card) : String × String × String :=
  (c.sourceId, c.sourceName, c.side)

/-- The identity fields of a slot source. -/
def sourceIdentity (s : Source) : String × String × String :=
  (s.id, s.name, s.side)

/-- Concrete fixture: a left source at the origin. -/
def sA : Source := { id := "a", name := "A", side := "LEFT", x := 0, y := 0 }

/-- Concrete fixture: a right source at (10, 10). -/
def sB : Source := { id := "b", name := "B", side := "RIGHT", x := 10, y := 10 }

/-- Concrete fixture: a source no article originates from. -/
def sZ : Source := { id := "zz", name := "Z", side := "CENTER", x := 1, y := 1 }

/-- Concrete fixture: an article from source `a`. -/
def artA : Article :=
  { url := "uA", title := "tA", urlToImage := "iA", publishedAt := "pA"
    source := some "a" }

/-- Concrete fixture: an article from source `b`. -/
def artB : Article :=
  { url := "uB", title := "tB", urlToImage := "iB", publishedAt := "pB"
    source := some "b" }

/-- Concrete fixture: an article with an absent/null source object. -/
def artNull : Article :=
  { url := "uN", title := "tN", urlToImage := "iN", publishedAt := "pN"
    source := none }

/-! ## Step lemmas for the assembly loop -/

theorem assembleLoop_cons_found (articles : List Article) (s : Source)
    (rest : List Source) (emitted : Nat) (art : Article)
    (hf : articles.find? (matchesSource s) = some art) :
    assembleLoop articles (s :: rest) emitted =
      mkCard s art :: assembleLoop articles rest (emitted + 1) := by
  have h1 : assembleLoop articles (s :: rest) emitted =
      (match articles.find? (matchesSource s) with
       | some art => mkCard s art :: assembleLoop articles rest (emitted + 1)
       | none =>
         if h : 0 < articles.length then
           mkCard s (articles.get ⟨emitted % articles.length, Nat.mod_lt _ h⟩) ::
             assembleLoop articles rest (emitted + 1)
         else assembleLoop articles rest emitted) := rfl
  rw [h1, hf]

theorem assembleLoop_cons_fallback (articles : List Article) (s : Source)
    (rest : List Source) (emitted : Nat)
    (hf : articles.find? (matchesSource s) = none) (h : 0 < articles.length) :
    assembleLoop articles (s :: rest) emitted =
      mkCard s (articles.get ⟨emitted % articles.length, Nat.mod_lt _ h⟩) ::
        assembleLoop articles rest (emitted + 1) := by
  have h1 : assembleLoop articles (s :: rest) emitted =
      (match articles.find? (matchesSource s) with
       | some art => mkCard s art :: assembleLoop articles rest (emitted + 1)
       | none =>
         if h : 0 < articles.length then
           mkCard s (articles.get ⟨emitted % articles.length, Nat.mod_lt _ h⟩) ::
             assembleLoop articles rest (emitted + 1)
         else assembleLoop articles rest emitted) := rfl
  rw [h1, hf, dif_pos h]

theorem assembleLoop_cons_skip (articles : List Article) (s : Source)
    (rest : List Source) (emitted : Nat)
    (hf : articles.find? (matchesSource s) = none) (h : ¬ 0 < articles.length) :
    assembleLoop articles (s :: rest) emitted =
      assembleLoop articles rest emitted := by
  have h1 : assembleLoop articles (s :: rest) emitted =
      (match articles.find? (matchesSource s) with
       | some art => mkCard s art :: assembleLoop articles rest (emitted + 1)
       | none =>
         if h : 0 < articles.length then
           mkCard s (articles.get ⟨emitted % articles.length, Nat.mod_lt _ h⟩) ::
             assembleLoop articles rest (emitted + 1)
         else assembleLoop articles rest emitted) := rfl
  rw [h1, hf, dif_neg h]

theorem assembleLoop_nil_articles (sources : List Source) :
    ∀ emitted : Nat, assembleLoop [] sources emitted = [] := by
  induction sources with
  | nil => intro emitted; rfl
  | cons s rest ih =>
    intro emitted
    rw [assembleLoop_cons_skip [] s rest emitted rfl (by simp)]
    exact ih emitted

theorem matchesSource_eq_true_of_eq (s : Source) (a : Article)
    (h : a.source = some s.id) : matchesSource s a = true := by
  unfold matchesSource
  rw [h]
  simp

theorem matchesSource_eq_false_of_ne (s : Source) (b : Article)
    (h : b.source ≠ some s.id) : matchesSource s b = false := by
  unfold matchesSource
  cases hb : b.source with
  | none => rfl
  | some sid =>
    apply beq_eq_false_iff_ne.mpr
    intro he
    exact h (by rw [hb, he])

theorem find?_first_match (s : Source) (a : Article) (l2 : List Article) :
    ∀ l1 : List Article, matchesSource s a = true →
      (∀ b ∈ l1, matchesSource s b = false) →
      (l1 ++ a :: l2).find? (matchesSource s) = some a := by
  intro l1
  induction l1 with
  | nil =>
    intro ha _
    simpa using List.find?_cons_of_pos l2 ha
  | cons b t ih =>
    intro ha hl
    rw [List.cons_append,
      List.find?_cons_of_neg _ (by rw [hl b (List.mem_cons_self b t)]; simp)]
    exact ih ha (fun c hc => hl c (List.mem_cons_of_mem b hc))

theorem mem_assembleLoop_identity (articles : List Article) :
    ∀ (sources : List Source) (emitted : Nat) (c : Card),
      c ∈ assembleLoop articles sources emitted →
      ∃ s ∈ sources, c.sourceId = s.id ∧ c.sourceName = s.name ∧
        c.side = s.side := by
  intro sources
  induction sources with
  | nil =>
    intro emitted c hc
    rw [assembleLoop] at hc
    exact absurd hc (List.not_mem_nil c)
  | cons s rest ih =>
    intro emitted c hc
    have hconc : ∀ (a : Article) (e : Nat),
        c ∈ mkCard s a :: assembleLoop articles rest e →
        ∃ t ∈ s :: rest, c.sourceId = t.id ∧ c.sourceName = t.name ∧
          c.side = t.side := by
      intro a e hmem
      rcases List.mem_cons.mp hmem with hh | hh
      · exact ⟨s, List.mem_cons_self s rest, by subst hh; exact ⟨rfl, rfl, rfl⟩⟩
      · obtain ⟨t, ht, hp⟩ := ih e c hh
        exact ⟨t, List.mem_cons_of_mem s ht, hp⟩
    cases hf : articles.find? (matchesSource s) with
    | some art =>
      rw [assembleLoop_cons_found articles s rest emitted art hf] at hc
      exact hconc art (emitted + 1) hc
    | none =>
      by_cases hpos : 0 < articles.length
      · rw [assembleLoop_cons_fallback articles s rest emitted hf hpos] at hc
        exact hconc _ (emitted + 1) hc
      · rw [assembleLoop_cons_skip articles s rest emitted hf hpos] at hc
        obtain ⟨t, ht, hp⟩ := ih emitted c hc
        exact ⟨t, List.mem_cons_of_mem s ht, hp⟩

theorem mem_assembleLoop_articleId_eq_url (articles : List Article) :
    ∀ (sources : List Source) (emitted : Nat) (c : Card),
      c ∈ assembleLoop articles sources emitted → c.articleId = c.url := by
  intro sources
  induction sources with
  | nil =>
    intro emitted c hc
    rw [assembleLoop] at hc
    exact absurd hc (List.not_mem_nil c)
  | cons s rest ih =>
    intro emitted c hc
    have hconc : ∀ (a : Article) (e : Nat),
        c ∈ mkCard s a :: assembleLoop articles rest e → c.articleId = c.url := by
      intro a e hmem
      rcases List.mem_cons.mp hmem with hh | hh
      · subst hh; rfl
      · exact ih e c hh
    cases hf : articles.find? (matchesSource s) with
    | some art =>
      rw [assembleLoop_cons_found articles s rest emitted art hf] at hc
      exact hconc art (emitted + 1) hc
    | none =>
      by_cases hpos : 0 < articles.length
      · rw [assembleLoop_cons_fallback articles s rest emitted hf hpos] at hc
        exact hconc _ (emitted + 1) hc
      · rw [assembleLoop_cons_skip articles s rest emitted hf hpos] at hc
        exact ih emitted c hc

theorem assembleLoop_length_identity (articles : List Article)
    (hpos : 0 < articles.length) :
    ∀ (sources : List Source) (emitted : Nat),
      (assembleLoop articles sources emitted).length = sources.length ∧
      ∀ i : Nat,
        ((assembleLoop articles sources emitted)[i]?).map cardIdentity =
          (sources[i]?).map sourceIdentity := by
  intro sources
  induction sources with
  | nil =>
    intro emitted
    rw [assembleLoop]
    exact ⟨rfl, fun i => by simp⟩
  | cons s rest ih =>
    intro emitted
    have hconc : ∀ (a : Article),
        (mkCard s a :: assembleLoop articles rest (emitted + 1)).length =
          (s :: rest).length ∧
        ∀ i : Nat,
          ((mkCard s a :: assembleLoop articles rest (emitted + 1))[i]?).map
              cardIdentity =
            ((s :: rest)[i]?).map sourceIdentity := by
      intro a
      refine ⟨?_, ?_⟩
      · simp [(ih (emitted + 1)).1]
      · intro i
        cases i with
        | zero =>
          simp [cardIdentity, sourceIdentity, mkCard]
        | succ n =>
          rw [List.getElem?_cons_succ, List.getElem?_cons_succ]
          exact (ih (emitted + 1)).2 n
    cases hf : articles.find? (matchesSource s) with
    | some art =>
      rw [assembleLoop_cons_found articles s rest emitted art hf]
      exact hconc art
    | none =>
      rw [assembleLoop_cons_fallback articles s rest emitted hf hpos]
      exact hconc _

theorem assembleLoopFallible_eq_some (articles : List Article) :
    ∀ (sources : List Source) (emitted : Nat),
      assembleLoopFallible articles sources emitted =
        some (assembleLoop articles sources emitted) := by
  intro sources
  induction sources with
  | nil =>
    intro emitted
    rfl
  | cons s rest ih =>
    intro emitted
    have h1 : assembleLoopFallible articles (s :: rest) emitted =
        (match articles.find? (matchesSource s) with
         | some art =>
           (assembleLoopFallible articles rest (emitted + 1)).map
             (mkCard s art :: ·)
         | none =>
           if 0 < articles.length then
             match articles[emitted % articles.length]? with
             | some fb =>
               (assembleLoopFallible articles rest (emitted + 1)).map
                 (mkCard s fb :: ·)
             | none => none
           else
             assembleLoopFallible articles rest emitted) := rfl
    cases hf : articles.find? (matchesSource s) with
    | some art =>
      rw [h1, hf, assembleLoop_cons_found articles s rest emitted art hf,
        ih (emitted + 1)]
      rfl
    | none =>
      by_cases hpos : 0 < articles.length
      · have hb : emitted % articles.length < articles.length :=
          Nat.mod_lt _ hpos
        rw [h1, hf, if_pos hpos, List.getElem?_eq_getElem hb,
          assembleLoop_cons_fallback articles s rest emitted hf hpos,
          ih (emitted + 1)]
        rfl
      · rw [h1, hf, if_neg hpos,
          assembleLoop_cons_skip articles s rest emitted hf hpos]
        exact ih emitted

theorem insertBy_perm (le : Source → Source → Bool) (a : Source) :
    ∀ l : List Source, (insertBy le a l).Perm (a :: l) := by
  intro l
  induction l with
  | nil => exact List.Perm.refl _
  | cons b t ih =>
    rw [insertBy]
    by_cases h : le a b
    · rw [if_pos h]
    · rw [if_neg h]
      exact (List.Perm.cons b ih).trans (List.Perm.swap a b t)

theorem sortBy_perm (le : Source → Source → Bool) :
    ∀ l : List Source, (sortBy le l).Perm l := by
  intro l
  induction l with
  | nil => exact List.Perm.refl _
  | cons a t ih =>
    rw [sortBy]
    exact (insertBy_perm le a (sortBy le t)).trans (List.Perm.cons a ih)

/-! ## Claims -/

/-- Claim C1: every card emitted by the assembly — exact match or fallback —
takes `sourceId`, `sourceName` and `side` from the source the slot was
assembled for, so no emitted card has a `sourceId` that is not the id of
some source in the input sequence. -/
theorem c1_card_identity_from_slot_source (sources : List Source)
    (articles : List Article) (c : Card)
    (hc : c ∈ assembleCards sources articles) :
    ∃ s ∈ sources, c.sourceId = s.id ∧ c.sourceName = s.name ∧
      c.side = s.side :=
  mem_assembleLoop_identity articles sources 0 c hc

/-- Witness for C1 at a concrete input. -/
theorem c1_witness :
    ∃ s ∈ [sA], (mkCard sA artA).sourceId = s.id ∧
      (mkCard sA artA).sourceName = s.name ∧ (mkCard sA artA).side = s.side :=
  c1_card_identity_from_slot_source [sA] [artA] (mkCard sA artA) (by decide)

/-- Claim C2: when the slot's source has no matching article and the article
list is non-empty, the emitted card is built from the article at index
`emitted % articles.length`, where `emitted` is the number of cards pushed
so far (`cards.length`), not the slot's loop position. -/
theorem c2_fallback_index_is_emitted_mod_len (articles : List Article)
    (s : Source) (rest : List Source) (emitted : Nat)
    (hf : articles.find? (matchesSource s) = none)
    (h : 0 < articles.length) :
    assembleLoop articles (s :: rest) emitted =
      mkCard s (articles.get ⟨emitted % articles.length, Nat.mod_lt _ h⟩) ::
        assembleLoop articles rest (emitted + 1) :=
  assembleLoop_cons_fallback articles s rest emitted hf h

/-- Witness for C2 at a concrete input with emission count 3 and two
articles: the fallback picks index 3 % 2 = 1. -/
theorem c2_witness :
    assembleLoop [artA, artB] [sZ] 3 =
      mkCard sZ ([artA, artB].get ⟨3 % 2, by decide⟩) ::
        assembleLoop [artA, artB] [] 4 :=
  c2_fallback_index_is_emitted_mod_len [artA, artB] sZ [] 3 (by decide)
    (by decide)

/-- Claim C3: when some article's source identifier equals the slot source's
identifier, the slot emits a card built from the first such article in the
article list — its url as `articleId` and `url`, its title, image and
timestamp — with `sourceId`, `sourceName` and `side` taken from the slot
source. -/
theorem c3_exact_match_uses_first_article (l1 l2 : List Article) (a : Article)
    (s : Source) (rest : List Source) (emitted : Nat)
    (ha : a.source = some s.id)
    (hl1 : ∀ b ∈ l1, b.source ≠ some s.id) :
    assembleLoop (l1 ++ a :: l2) (s :: rest) emitted =
      { articleId := a.url, title := a.title, sourceId := s.id,
        sourceName := s.name, imageUrl := a.urlToImage, url := a.url,
        publishedAt := a.publishedAt, side := s.side } ::
        assembleLoop (l1 ++ a :: l2) rest (emitted + 1) := by
  have hfind : (l1 ++ a :: l2).find? (matchesSource s) = some a :=
    find?_first_match s a l2 l1 (matchesSource_eq_true_of_eq s a ha)
      (fun b hb => matchesSource_eq_false_of_ne s b (hl1 b hb))
  exact assembleLoop_cons_found _ s rest emitted a hfind

/-- Witness for C3 at a concrete input. -/
theorem c3_witness :
    assembleLoop ([artB] ++ artA :: []) [sA] 0 =
      { articleId := artA.url, title := artA.title, sourceId := sA.id,
        sourceName := sA.name, imageUrl := artA.urlToImage, url := artA.url,
        publishedAt := artA.publishedAt, side := sA.side } ::
        assembleLoop ([artB] ++ artA :: []) [] 1 :=
  c3_exact_match_uses_first_article [artB] [] artA sA [] 0 (by decide)
    (by decide)

/-- Claim C4: with a non-empty article list the output has exactly one card
per source, and the card at each position reports the identity fields of
the source at the same position. -/
theorem c4_length_and_positional_correspondence (sources : List Source)
    (articles : List Article) (h : articles ≠ []) :
    (assembleCards sources articles).length = sources.length ∧
    ∀ i : Nat,
      ((assembleCards sources articles)[i]?).map cardIdentity =
        (sources[i]?).map sourceIdentity :=
  assembleLoop_length_identity articles (List.length_pos_of_ne_nil h)
    sources 0

/-- Witness for C4 at a concrete input, sampled at positions 0 and 1. -/
theorem c4_witness :
    (assembleCards [sA, sZ] [artB]).length =
      ([sA, sZ] : List Source).length ∧
    ((assembleCards [sA, sZ] [artB])[0]?).map cardIdentity =
      (([sA, sZ] : List Source)[0]?).map sourceIdentity ∧
    ((assembleCards [sA, sZ] [artB])[1]?).map cardIdentity =
      (([sA, sZ] : List Source)[1]?).map sourceIdentity := by
  have h := c4_length_and_positional_correspondence [sA, sZ] [artB] (by simp)
  exact ⟨h.1, h.2 0, h.2 1⟩

/-- Claim C5 counterexample: with an empty sources list and a non-empty
article list, the assembler still returns the empty sequence, so "empty
output iff empty articles" fails as stated for every sources sequence. -/
theorem c5_counterexample :
    assembleCards [] [artA] = [] ∧ ([artA] : List Article) ≠ [] :=
  ⟨rfl, by simp⟩

/-- Claim C5 (amended): for a non-empty sources sequence, the assembler
returns the empty sequence iff the article list is empty. -/
theorem c5_amended_empty_iff (sources : List Source) (articles : List Article)
    (hs : sources ≠ []) :
    assembleCards sources articles = [] ↔ articles = [] := by
  constructor
  · intro hout
    by_contra hne
    have hpos := List.length_pos_of_ne_nil hne
    cases sources with
    | nil => exact hs rfl
    | cons s rest =>
      cases hf : articles.find? (matchesSource s) with
      | some art =>
        rw [assembleCards,
          assembleLoop_cons_found articles s rest 0 art hf] at hout
        exact List.cons_ne_nil _ _ hout
      | none =>
        rw [assembleCards,
          assembleLoop_cons_fallback articles s rest 0 hf hpos] at hout
        exact List.cons_ne_nil _ _ hout
  · intro h
    subst h
    exact assembleLoop_nil_articles sources 0

/-- Witness for the amended C5 at a concrete input. -/
theorem c5_amended_witness :
    assembleCards [sA] [artB] = [] ↔ ([artB] : List Article) = [] :=
  c5_amended_empty_iff [sA] [artB] (by simp)

/-- Claim C6: the assembly is total — with the fallback array access
modelled fallibly, the loop never reaches the error case and agrees with
the total assembler, because the fallback index is computed only under the
guard `0 < articles.length` and is then within bounds. -/
theorem c6_assembly_total_and_in_bounds (sources : List Source)
    (articles : List Article) :
    assembleLoopFallible articles sources 0 =
      some (assembleCards sources articles) :=
  assembleLoopFallible_eq_some articles sources 0

/-- Claim C7, with the selector modelled from the spec: `pickSources`
returns at most `SLOT_COUNT` sources, each drawn from the catalog, all
distinct when the catalog identifiers are distinct; a catalog with at most
`SLOT_COUNT` entries is returned whole (as a permutation, in the
selector's deterministic order), and an empty catalog yields the empty
sequence. -/
theorem c7_pickSources_spec (catalog : List Source) (x y : Rat)
    (hids : (catalog.map (fun s => s.id)).Nodup) :
    (pickSources catalog x y).length ≤ SLOT_COUNT ∧
    (∀ s ∈ pickSources catalog x y, s ∈ catalog) ∧
    (pickSources catalog x y).Nodup ∧
    (catalog.length ≤ SLOT_COUNT → (pickSources catalog x y).Perm catalog) ∧
    (catalog = [] → pickSources catalog x y = []) := by
  have hperm : (sortBy (nearer x y) catalog).Perm catalog :=
    sortBy_perm (nearer x y) catalog
  refine ⟨?_, ?_, ?_, ?_, ?_⟩
  · rw [pickSources, List.length_take]
    exact min_le_left _ _
  · intro s hs
    exact hperm.mem_iff.mp (List.take_subset _ _ hs)
  · have h1 : ((sortBy (nearer x y) catalog).map (fun s => s.id)).Nodup :=
      ((hperm.map (fun s => s.id)).symm).nodup hids
    have h2 : ((pickSources catalog x y).map (fun s => s.id)).Nodup :=
      ((List.take_sublist SLOT_COUNT
          (sortBy (nearer x y) catalog)).map (fun s => s.id)).nodup h1
    exact List.Nodup.of_map _ h2
  · intro hlen
    rw [pickSources,
      List.take_of_length_le (by rw [hperm.length_eq]; exact hlen)]
    exact hperm
  · intro h
    subst h
    rfl

/-- Witness for C7 at a three-entry catalog and at the empty catalog. -/
theorem c7_witness :
    (pickSources [sA, sB, sZ] 0 0).length ≤ SLOT_COUNT ∧
    (pickSources [sA, sB, sZ] 0 0).Nodup ∧
    (pickSources [sA, sB, sZ] 0 0).Perm [sA, sB, sZ] ∧
    pickSources ([] : List Source) 0 0 = [] := by
  have h := c7_pickSources_spec [sA, sB, sZ] 0 0 (by decide)
  have h0 := c7_pickSources_spec ([] : List Source) 0 0 (by decide)
  exact ⟨h.1, h.2.2.1, h.2.2.2.1 (by decide), h0.2.2.2.2 rfl⟩

/-- Claim C8: the feed handler rejects a request whose x or y coordinate is
missing or non-numeric (a `parseFloat` result of NaN, modelled as `none`)
with a 400 response, for every catalog and every article fetcher — so the
selector, the fetch and the assembler never run on such a request. -/
theorem c8_nan_guard_rejects_before_core (catalog : List Source)
    (fetch : List String → List Article) (qx qy : Option Rat)
    (h : qx = none ∨ qy = none) :
    feedHandler catalog fetch qx qy = FeedResponse.badRequest := by
  rcases h with h | h
  · subst h
    cases qy <;> rfl
  · subst h
    cases qx <;> rfl

/-- Witness for C8 at a concrete input with a missing x coordinate. -/
theorem c8_witness :
    feedHandler [sA] (fun _ => [artA]) none (some 1) =
      FeedResponse.badRequest :=
  c8_nan_guard_rejects_before_core [sA] (fun _ => [artA]) none (some 1)
    (Or.inl rfl)

/-- Claim C9: every emitted card has `articleId` equal to `url` — both are
copied from the chosen article's url, in the exact-match and in the
fallback branch alike. -/
theorem c9_articleId_always_equals_url (sources : List Source)
    (articles : List Article) (c : Card)
    (hc : c ∈ assembleCards sources articles) :
    c.articleId = c.url :=
  mem_assembleLoop_articleId_eq_url articles sources 0 c hc

/-- Witness for C9 at a concrete input. -/
theorem c9_witness : (mkCard sA artA).articleId = (mkCard sA artA).url :=
  c9_articleId_always_equals_url [sA] [artA] (mkCard sA artA) (by decide)

/-- Claim C10: an article whose source object is absent or null never
satisfies the exact-match search for any slot source, yet it remains
eligible as the fallback article: a slot whose only available article has
a null source still emits a card built from it. -/
theorem c10_null_source_no_exact_match_yet_fallback_eligible :
    (∀ (s : Source) (articles : List Article) (a : Article),
        articles.find? (matchesSource s) = some a → a.source ≠ none) ∧
    assembleCards [sZ] [artNull] = [mkCard sZ artNull] := by
  constructor
  · intro s articles a hf hnone
    have hp := List.find?_some hf
    simp [matchesSource, hnone] at hp
  · rfl

/-- Witness for C10: the universal part applied at a concrete matching
input, together with the concrete fallback equation. -/
theorem c10_witness :
    artA.source ≠ none ∧ assembleCards [sZ] [artNull] = [mkCard sZ artNull] :=
  ⟨c10_null_source_no_exact_match_yet_fallback_eligible.1 sA [artA] artA
      (by decide),
    c10_null_source_no_exact_match_yet_fallback_eligible.2⟩

end News
